import Mathlib

/-
  Verification of the ruvector repository against its specification.

  Part 1 embeds the Postgres operator surface
  (crates/ruvector-postgres/src/operators.rs): array-based distance
  functions, vector arithmetic and normalization.  Rust f32 values are
  modelled as real numbers; a call to the pgrx error macro is modelled
  as an Except.error carrying a structured rendering of the format
  string and its interpolated arguments.

  Part 2 embeds the ONNX integration layer
  (examples/onnx-embeddings/src/ruvector_integration.rs): the
  RuVectorEmbeddings index wrapper over an external vector store, its
  insert/search/delete/clear operations, and the RAG pipeline prompt
  formatting.  The external collaborators (the embedder and the
  VectorIndex over MemoryStore) are not part of the shown sources and
  are modelled from the specification where noted.
-/

namespace RuVector

/-- Structured model of the error raised through the pgrx error macro in
operators.rs.  Each constructor corresponds to one format string used by
an error call site; its fields are exactly the values interpolated into
that format string.  -/
inductive PgError where
  /-- The message reading, with m and n interpolated: Cannot compute
  distance between vectors of different dimensions (m vs n). -/
  | dimensionMismatchDist (alen blen : Nat) : PgError
  /-- The constant message: Vectors must have the same dimensions. -/
  | sameDimensions : PgError
deriving DecidableEq

/-- Modelled from the spec: the dot product used by the distance kernels
in crate::distance, which are not among the shown sources. -/
def dotProduct (a b : List ℝ) : ℝ :=
  ((a.zip b).map fun p => p.1 * p.2).sum

/-- Modelled from the spec: crate::distance::euclidean_distance, the
square root of the sum of squared elementwise differences. -/
noncomputable def euclidean_distance (a b : List ℝ) : ℝ :=
  Real.sqrt (((a.zip b).map fun p => (p.1 - p.2) * (p.1 - p.2)).sum)

/-- Modelled from the spec: crate::distance::inner_product_distance, the
negated dot product. -/
def inner_product_distance (a b : List ℝ) : ℝ :=
  -(dotProduct a b)

/-- Modelled from the spec: the L2 norm of a vector as used by the
cosine kernel in crate::distance. -/
noncomputable def l2normOf (v : List ℝ) : ℝ :=
  Real.sqrt ((v.map fun x => x * x).sum)

/-- Modelled from the spec: crate::distance::cosine_distance, one minus
the dot product divided by the product of the two L2 norms. -/
noncomputable def cosine_distance (a b : List ℝ) : ℝ :=
  1 - dotProduct a b / (l2normOf a * l2normOf b)

/-- Modelled from the spec: crate::distance::manhattan_distance, the sum
of absolute elementwise differences. -/
noncomputable def manhattan_distance (a b : List ℝ) : ℝ :=
  ((a.zip b).map fun p => |p.1 - p.2|).sum

/-- operators.rs l2_distance_arr: raises the dimension-mismatch error
reporting both lengths when the lengths differ, otherwise delegates to
the euclidean kernel. -/
noncomputable def l2_distance_arr (a b : List ℝ) : Except PgError ℝ :=
  if a.length ≠ b.length then
    .error (.dimensionMismatchDist a.length b.length)
  else
    .ok (euclidean_distance a b)

/-- operators.rs inner_product_arr: on equal lengths returns the negated
inner-product distance, i.e. the dot product itself. -/
noncomputable def inner_product_arr (a b : List ℝ) : Except PgError ℝ :=
  if a.length ≠ b.length then
    .error (.dimensionMismatchDist a.length b.length)
  else
    .ok (-(inner_product_distance a b))

/-- operators.rs neg_inner_product_arr: on equal lengths returns the
inner-product distance, i.e. the negated dot product. -/
noncomputable def neg_inner_product_arr (a b : List ℝ) : Except PgError ℝ :=
  if a.length ≠ b.length then
    .error (.dimensionMismatchDist a.length b.length)
  else
    .ok (inner_product_distance a b)

/-- operators.rs cosine_distance_arr. -/
noncomputable def cosine_distance_arr (a b : List ℝ) : Except PgError ℝ :=
  if a.length ≠ b.length then
    .error (.dimensionMismatchDist a.length b.length)
  else
    .ok (cosine_distance a b)

/-- operators.rs cosine_similarity_arr: literally one minus the result
of cosine_distance_arr, with an error from the inner call propagated. -/
noncomputable def cosine_similarity_arr (a b : List ℝ) : Except PgError ℝ :=
  (cosine_distance_arr a b).map fun d => 1 - d

/-- operators.rs l1_distance_arr. -/
noncomputable def l1_distance_arr (a b : List ℝ) : Except PgError ℝ :=
  if a.length ≠ b.length then
    .error (.dimensionMismatchDist a.length b.length)
  else
    .ok (manhattan_distance a b)

/-- operators.rs vector_norm: the L2 norm of the vector. -/
noncomputable def vector_norm (v : List ℝ) : ℝ :=
  Real.sqrt ((v.map fun x => x * x).sum)

open Classical in
/-- operators.rs vector_normalize: computes the L2 norm inline; if it is
exactly zero the input is returned unchanged, otherwise every element is
divided by the norm. -/
noncomputable def vector_normalize (v : List ℝ) : List ℝ :=
  if vector_norm v = 0 then v else v.map fun x => x / vector_norm v

/-- operators.rs vector_add: errors with the constant same-dimensions
message when the lengths differ, otherwise adds elementwise. -/
noncomputable def vector_add (a b : List ℝ) : Except PgError (List ℝ) :=
  if a.length ≠ b.length then
    .error .sameDimensions
  else
    .ok ((a.zip b).map fun p => p.1 + p.2)

/-- operators.rs vector_sub. -/
noncomputable def vector_sub (a b : List ℝ) : Except PgError (List ℝ) :=
  if a.length ≠ b.length then
    .error .sameDimensions
  else
    .ok ((a.zip b).map fun p => p.1 - p.2)

/-- operators.rs vector_mul_scalar: total, no length constraint. -/
noncomputable def vector_mul_scalar (v : List ℝ) (scalar : ℝ) : List ℝ :=
  v.map fun x => x * scalar

/-- operators.rs vector_avg2: elementwise average, same-dimensions error
on a length mismatch. -/
noncomputable def vector_avg2 (a b : List ℝ) : Except PgError (List ℝ) :=
  if a.length ≠ b.length then
    .error .sameDimensions
  else
    .ok ((a.zip b).map fun p => (p.1 + p.2) / 2)

/-- The Rust truncating cast from a 64-bit usize to i32, as performed by
the expression casting a length to i32: the low 32 bits reinterpreted as
a signed two-complement value. -/
def i32OfUSize (n : Nat) : Int :=
  let m : Nat := n % 2 ^ 32
  if m < 2 ^ 31 then (m : Int) else (m : Int) - 2 ^ 32

/-- operators.rs vector_dims: the element count cast to i32 with the
plain Rust as-cast. -/
def vector_dims (v : List ℝ) : Int :=
  i32OfUSize v.length

/-! Part 2: the ONNX integration layer.  Vector identifiers are natural
numbers; f32 vector components are modelled as rationals since the
integration layer never performs arithmetic on them; the metadata value
type (serde_json in the source) is an arbitrary type parameter. -/

/-- Opaque identifier assigned by the vector store. -/
abbrev VectorId := Nat

/-- The error type of the onnx-embeddings crate as used by
ruvector_integration.rs: a dimension mismatch carrying the expected and
actual counts, or a wrapped store error rendered to a string. -/
inductive EmbeddingError where
  | dimensionMismatch (expected actual : Nat) : EmbeddingError
  | ruvector (msg : String) : EmbeddingError
deriving DecidableEq

/-- One record held by the store: the assigned identifier, the vector
and the optional metadata. -/
structure StoredVec (μ : Type) where
  vid : VectorId
  vec : List ℚ
  meta : Option μ

/-- Modelled from the spec: the external MemoryStore-backed VectorIndex,
whose sources are not shown.  Per the Vector Store contract it assigns
opaque identifiers unique within the instance; this model hands out
sequential fresh identifiers and keeps the entries in insertion order.
Graph parameters and the distance metric do not affect the claims
settled here and are omitted. -/
structure MemStore (μ : Type) where
  nextId : Nat
  entries : List (StoredVec μ)

/-- The identifiers currently present in the store. -/
def MemStore.ids {μ : Type} (s : MemStore μ) : List VectorId :=
  s.entries.map (·.vid)

/-- Modelled from the spec: store insert assigns a fresh identifier and
records the entry. -/
def MemStore.insert {μ : Type} (s : MemStore μ) (v : List ℚ) (m : Option μ) :
    VectorId × MemStore μ :=
  (s.nextId, ⟨s.nextId + 1, s.entries ++ [⟨s.nextId, v, m⟩]⟩)

/-- Modelled from the spec: store batch insert returns the assigned
identifiers in positional order. -/
def MemStore.insertBatch {μ : Type} :
    MemStore μ → List (List ℚ × Option μ) → List VectorId × MemStore μ
  | s, [] => ([], s)
  | s, e :: rest =>
    let p := s.insert e.1 e.2
    let q := p.2.insertBatch rest
    (p.1 :: q.1, q.2)

/-- Modelled from the spec: store delete removes the entry with the
given identifier and reports whether it was present. -/
def MemStore.delete {μ : Type} (s : MemStore μ) (i : VectorId) :
    Bool × MemStore μ :=
  (s.entries.any (fun e => e.vid = i),
   ⟨s.nextId, s.entries.filter (fun e => ¬ e.vid = i)⟩)

/-- Modelled from the spec: store clear removes every entry. -/
def MemStore.clear {μ : Type} (s : MemStore μ) : MemStore μ :=
  ⟨s.nextId, []⟩

/-- Modelled from the spec: the store element count. -/
def MemStore.size {μ : Type} (s : MemStore μ) : Nat :=
  s.entries.length

/-- The integration-layer state from ruvector_integration.rs: the owned
store and the identifier-to-text side-mapping (a HashMap in the source,
modelled as a function to Option, which is its lookup semantics).  The
display name and the shared embedder reference play no part in any
claim and are omitted. -/
structure RuVectorEmbeddings (μ : Type) where
  store : MemStore μ
  texts : VectorId → Option String

/-- insert_with_embedding: inserts the entry into the store, then
records the identifier-to-text association. -/
def insert_with_embedding {μ : Type} (s : RuVectorEmbeddings μ)
    (text : String) (embedding : List ℚ) (metadata : Option μ) :
    VectorId × RuVectorEmbeddings μ :=
  let p := s.store.insert embedding metadata
  (p.1, ⟨p.2, fun i => if i = p.1 then some text else s.texts i⟩)

/-- insert: embeds the text with the external embedder (passed here as a
function, since the embedder is an external collaborator) and forwards
to insert_with_embedding. -/
def insert {μ : Type} (embedOne : String → List ℚ) (s : RuVectorEmbeddings μ)
    (text : String) (metadata : Option μ) : VectorId × RuVectorEmbeddings μ :=
  insert_with_embedding s text (embedOne text) metadata

/-- The side-mapping after the loop zipping returned identifiers with
their texts, inserting each pair in order. -/
def updateTexts (m : VectorId → Option String)
    (ps : List (VectorId × String)) : VectorId → Option String :=
  ps.foldl (fun acc p => fun i => if i = p.1 then some p.2 else acc i) m

/-- insert_batch_with_embeddings: fails with DimensionMismatch carrying
both counts when the list lengths differ, leaving the state untouched;
otherwise batch-inserts entries with no metadata and zips the returned
identifiers with the texts to update the side-mapping. -/
def insert_batch_with_embeddings {μ : Type} (s : RuVectorEmbeddings μ)
    (texts : List String) (embeddings : List (List ℚ)) :
    Except EmbeddingError (List VectorId) × RuVectorEmbeddings μ :=
  if texts.length ≠ embeddings.length then
    (.error (.dimensionMismatch texts.length embeddings.length), s)
  else
    let p := s.store.insertBatch (embeddings.map fun v => (v, none))
    (.ok p.1, ⟨p.2, updateTexts s.texts (p.1.zip texts)⟩)

/-- delete: removes from the store; only when the store confirms the
removal is the side-mapping entry removed; returns whether a removal
occurred. -/
def delete {μ : Type} (s : RuVectorEmbeddings μ) (i : VectorId) :
    Bool × RuVectorEmbeddings μ :=
  let p := s.store.delete i
  if p.1 then
    (true, ⟨p.2, fun j => if j = i then none else s.texts j⟩)
  else
    (false, ⟨p.2, s.texts⟩)

/-- clear: empties the store and the side-mapping. -/
def clear {μ : Type} (s : RuVectorEmbeddings μ) : RuVectorEmbeddings μ :=
  ⟨s.store.clear, fun _ => none⟩

/-- len: the element count reported by the store. -/
def lenOf {μ : Type} (s : RuVectorEmbeddings μ) : Nat :=
  s.store.size

/-- The search parameters passed to the store: the requested result
count and the search breadth. -/
structure SearchParams where
  k : Nat
  efSearch : Nat
deriving DecidableEq

/-- One raw hit returned by the store search. -/
structure RawResult (μ : Type) where
  id : VectorId
  score : ℚ
  metadata : Option μ
deriving DecidableEq

/-- The enriched result returned to callers of the integration layer. -/
structure SearchResult (μ : Type) where
  id : VectorId
  text : String
  score : ℚ
  metadata : Option μ
deriving DecidableEq

/-- The parameters search_with_embedding builds: k results with a
search breadth of k * 2. -/
def searchParamsOf (k : Nat) : SearchParams :=
  ⟨k, k * 2⟩

/-- The post-processing search_with_embedding applies to the raw store
hits: look up each text, silently dropping hits with no entry, keeping
the store order. -/
def search_with_embedding {μ : Type} (texts : VectorId → Option String)
    (results : List (RawResult μ)) : List (SearchResult μ) :=
  results.filterMap fun r =>
    match texts r.id with
    | none => none
    | some t => some ⟨r.id, t, r.score, r.metadata⟩

/-- The parameters search_filtered builds: k * 4 candidates with a
search breadth of k * 4. -/
def searchFilteredParamsOf (k : Nat) : SearchParams :=
  ⟨k * 4, k * 4⟩

/-- The post-processing search_filtered applies to the raw store hits:
look up each text (dropping hits with no entry), then, only when the
hit carries metadata, drop it unless the predicate accepts that
metadata; finally take the first k survivors. -/
def search_filtered {μ : Type} (texts : VectorId → Option String)
    (filter : μ → Bool) (k : Nat) (results : List (RawResult μ)) :
    List (SearchResult μ) :=
  (results.filterMap fun r =>
    match texts r.id with
    | none => none
    | some t =>
      match r.metadata with
      | some m => if filter m then some ⟨r.id, t, r.score, r.metadata⟩ else none
      | none => some ⟨r.id, t, r.score, r.metadata⟩).take k

/-- RagPipeline format_context: starts from the Context header, appends
one numbered line per retrieved text counting from 1, then the Question
trailer followed by the literal query. -/
def format_context (contexts : List String) (query : String) : String :=
  let prompt := "Context:\n"
  let prompt := contexts.enum.foldl
    (fun p ic => p ++ ("[" ++ toString (ic.1 + 1) ++ "] " ++ ic.2 ++ "\n")) prompt
  prompt ++ ("\nQuestion: " ++ query)

/-- Refinement target for claim C10, following the words of the claim:
the Context header, one numbered line per retrieved text counting from
the given start index, then the Question trailer and the query. -/
def formatContextSpec (contexts : List String) (query : String) : String :=
  "Context:\n" ++ linesFrom 1 contexts ++ "\nQuestion: " ++ query
where
  linesFrom : Nat → List String → String
    | _, [] => ""
    | i, c :: cs => "[" ++ toString i ++ "] " ++ c ++ "\n" ++ linesFrom (i + 1) cs

/-- Store well-formedness: every identifier present in the store is
below the next fresh identifier, and no identifier occurs twice.  The
modelled store establishes this at construction and it backs the
freshness of assigned identifiers. -/
def StoreWF {μ : Type} (s : RuVectorEmbeddings μ) : Prop :=
  (∀ i ∈ s.store.ids, i < s.store.nextId) ∧ s.store.ids.Nodup

/-- Invariant I1 of the spec: an identifier is a key of the text
side-mapping exactly when it is present in the vector store. -/
def InvI1 {μ : Type} (s : RuVectorEmbeddings μ) : Prop :=
  ∀ i : VectorId, s.texts i ≠ none ↔ i ∈ s.store.ids

/-! Theorems settling the claims. -/

lemma foldl_lines_eq (cs : List String) :
    ∀ (n : Nat) (acc : String),
      (cs.enumFrom n).foldl
        (fun p ic => p ++ ("[" ++ toString (ic.1 + 1) ++ "] " ++ ic.2 ++ "\n")) acc =
      acc ++ formatContextSpec.linesFrom (n + 1) cs := by
  induction cs with
  | nil =>
    intro n acc
    simp [formatContextSpec.linesFrom, String.append_empty]
  | cons c cs ih =>
    intro n acc
    show (cs.enumFrom (n + 1)).foldl _ (acc ++ _) = _
    rw [ih]
    simp [formatContextSpec.linesFrom, String.append_assoc]

/-- Claim C7: for every pair of equal-length float sequences a and b,
cosine_similarity_arr returns exactly one minus the value returned by
cosine_distance_arr, by the very same subtraction the source performs. -/
theorem cosine_similarity_eq_one_sub_distance (a b : List ℝ)
    (h : a.length = b.length) :
    ∃ d : ℝ, cosine_distance_arr a b = .ok d ∧
      cosine_similarity_arr a b = .ok (1 - d) := by
  refine ⟨cosine_distance a b, ?_, ?_⟩ <;>
    simp [cosine_distance_arr, cosine_similarity_arr, Except.map, h]

/-- Witness for claim C7 at the concrete equal-length pair. -/
theorem cosine_similarity_eq_one_sub_distance_witness :
    ([1, 0] : List ℝ).length = ([0, 1] : List ℝ).length ∧
    ∃ d : ℝ, cosine_distance_arr [1, 0] [0, 1] = .ok d ∧
      cosine_similarity_arr [1, 0] [0, 1] = .ok (1 - d) :=
  ⟨rfl, cosine_similarity_eq_one_sub_distance [1, 0] [0, 1] rfl⟩

/-- Counterexample to claim C5 as stated: on a length mismatch,
vector_add raises the constant same-dimensions error, which does not
carry the two lengths, so it is not a DimensionMismatch error reporting
both lengths. -/
theorem vector_add_mismatch_reports_no_lengths :
    vector_add [1] [1, 2] = .error PgError.sameDimensions ∧
    PgError.sameDimensions ≠ PgError.dimensionMismatchDist 1 2 := by
  constructor
  · simp [vector_add]
  · simp

/-- Claim C5 as amended: on every length mismatch the five distance
functions fail with the dimension-mismatch error reporting both
lengths, the elementwise add/sub/avg functions fail with the constant
same-dimensions error that reports no lengths, and scalar multiply is
total, defined on every length. -/
theorem mismatch_errors (a b : List ℝ) (h : a.length ≠ b.length) :
    l2_distance_arr a b = .error (.dimensionMismatchDist a.length b.length) ∧
    inner_product_arr a b = .error (.dimensionMismatchDist a.length b.length) ∧
    neg_inner_product_arr a b = .error (.dimensionMismatchDist a.length b.length) ∧
    cosine_distance_arr a b = .error (.dimensionMismatchDist a.length b.length) ∧
    l1_distance_arr a b = .error (.dimensionMismatchDist a.length b.length) ∧
    vector_add a b = .error .sameDimensions ∧
    vector_sub a b = .error .sameDimensions ∧
    vector_avg2 a b = .error .sameDimensions ∧
    ∀ c : ℝ, (vector_mul_scalar a c).length = a.length := by
  refine ⟨?_, ?_, ?_, ?_, ?_, ?_, ?_, ?_, ?_⟩ <;>
    simp [l2_distance_arr, inner_product_arr, neg_inner_product_arr,
      cosine_distance_arr, l1_distance_arr, vector_add, vector_sub,
      vector_avg2, vector_mul_scalar, h]

/-- Witness for the amended claim C5 at a concrete mismatched pair. -/
theorem mismatch_errors_witness :
    ([1] : List ℝ).length ≠ ([1, 2] : List ℝ).length ∧
    l2_distance_arr [1] [1, 2] = .error (.dimensionMismatchDist 1 2) ∧
    vector_sub [1] [1, 2] = .error .sameDimensions ∧
    (vector_mul_scalar [1] 3).length = 1 :=
  ⟨by simp, (mismatch_errors [1] [1, 2] (by simp)).1,
    (mismatch_errors [1] [1, 2] (by simp)).2.2.2.2.2.2.1,
    (mismatch_errors [1] [1, 2] (by simp)).2.2.2.2.2.2.2.2 3⟩

/-- Counterexample to claim C9 as stated: on a vector of length 2 to
the 31st, vector_dims neither rejects (it is total) nor saturates to
the largest i32; it wraps to the negative value. -/
theorem vector_dims_wraps :
    vector_dims (List.replicate (2 ^ 31) (0 : ℝ)) = -(2 ^ 31) ∧
    vector_dims (List.replicate (2 ^ 31) (0 : ℝ)) ≠ 2 ^ 31 - 1 := by
  have h : (List.replicate (2 ^ 31) (0 : ℝ)).length = 2 ^ 31 :=
    List.length_replicate _ _
  constructor <;> · simp only [vector_dims, i32OfUSize, h]; norm_num

/-- Claim C9 as amended: vector_dims performs the Rust wrapping cast to
i32: the result is exact for lengths below 2 to the 31st, always lies
in the i32 range, and is congruent to the true length modulo 2 to the
32nd. -/
theorem vector_dims_wrapping_cast (v : List ℝ) :
    (v.length < 2 ^ 31 → vector_dims v = v.length) ∧
    -(2 ^ 31) ≤ vector_dims v ∧ vector_dims v < 2 ^ 31 ∧
    vector_dims v % 2 ^ 32 = (v.length : Int) % 2 ^ 32 := by
  simp only [vector_dims, i32OfUSize]
  split <;> omega

/-- Witness for the amended claim C9 at a concrete short vector. -/
theorem vector_dims_wrapping_cast_witness :
    ([0, 0, 0] : List ℝ).length < 2 ^ 31 ∧
    vector_dims ([0, 0, 0] : List ℝ) = 3 :=
  ⟨by norm_num, (vector_dims_wrapping_cast [0, 0, 0]).1 (by norm_num)⟩

/-- Claim C3: on a count mismatch, insert_batch_with_embeddings fails
with DimensionMismatch carrying both counts and the state is the very
state passed in: the store, the reported length and the side-mapping
are unchanged. -/
theorem insert_batch_mismatch {μ : Type} (s : RuVectorEmbeddings μ)
    (texts : List String) (embeddings : List (List ℚ))
    (h : texts.length ≠ embeddings.length) :
    (insert_batch_with_embeddings s texts embeddings).1 =
      .error (.dimensionMismatch texts.length embeddings.length) ∧
    (insert_batch_with_embeddings s texts embeddings).2 = s ∧
    lenOf (insert_batch_with_embeddings s texts embeddings).2 = lenOf s ∧
    (insert_batch_with_embeddings s texts embeddings).2.texts = s.texts := by
  simp [insert_batch_with_embeddings, h]

/-- Witness for claim C3 at a concrete mismatched batch. -/
theorem insert_batch_mismatch_witness :
    (["a"] : List String).length ≠ ([] : List (List ℚ)).length ∧
    (insert_batch_with_embeddings
        (⟨⟨0, []⟩, fun _ => none⟩ : RuVectorEmbeddings Unit) ["a"] []).1 =
      .error (.dimensionMismatch 1 0) ∧
    lenOf (insert_batch_with_embeddings
        (⟨⟨0, []⟩, fun _ => none⟩ : RuVectorEmbeddings Unit) ["a"] []).2 =
      lenOf (⟨⟨0, []⟩, fun _ => none⟩ : RuVectorEmbeddings Unit) :=
  ⟨by simp,
    (insert_batch_mismatch (⟨⟨0, []⟩, fun _ => none⟩ : RuVectorEmbeddings Unit)
      ["a"] [] (by simp)).1,
    (insert_batch_mismatch (⟨⟨0, []⟩, fun _ => none⟩ : RuVectorEmbeddings Unit)
      ["a"] [] (by simp)).2.2.1⟩

/-- Claim C10: format_context renders exactly the Context header, one
numbered line per retrieved text counting from 1 in retrieval order,
then the Question trailer and the literal query; with no retrieved
texts it is exactly the header and trailer around the query, not an
error. -/
theorem format_context_correct (query : String) (contexts : List String) :
    format_context contexts query = formatContextSpec contexts query ∧
    format_context [] query = "Context:\n\nQuestion: " ++ query := by
  constructor
  · show (contexts.enumFrom 0).foldl _ "Context:\n" ++ _ = _
    rw [foldl_lines_eq]
    simp [formatContextSpec, String.append_assoc]
  · show ("Context:\n" ++ ("\nQuestion: " ++ query)) = _
    rw [← String.append_assoc]
    rfl

/-- Claim C4: search_with_embedding asks the store for k results with a
search breadth of 2 times k, and returns exactly the raw hits whose
identifier has a text entry, in store order, enriched with that text;
hits with no entry are dropped with no error. -/
theorem search_with_embedding_correct {μ : Type} (k : Nat)
    (texts : VectorId → Option String) (results : List (RawResult μ)) :
    (searchParamsOf k).k = k ∧
    (searchParamsOf k).efSearch = 2 * k ∧
    search_with_embedding texts results =
      (results.filter fun r => (texts r.id).isSome).map
        fun r => ⟨r.id, (texts r.id).getD "", r.score, r.metadata⟩ := by
  refine ⟨rfl, Nat.mul_comm k 2, ?_⟩
  induction results with
  | nil => rfl
  | cons r rs ih =>
    cases htx : texts r.id <;>
      simp [search_with_embedding, List.filterMap_cons, htx] <;>
      simpa [search_with_embedding] using ih

/-- Counterexample to claim C1 as stated: a raw hit carrying no
metadata passes the filtering search even under a predicate rejecting
everything, so the output of a filtering search can contain a candidate
with no metadata, and a predicate rejecting all metadata does not force
an empty result list. -/
theorem search_filtered_keeps_no_metadata :
    search_filtered (μ := Nat) (fun i => if i = 0 then some "doc" else none)
      (fun _ => false) 1 [⟨0, 0, none⟩] = [⟨0, "doc", 0, none⟩] ∧
    (⟨0, "doc", 0, none⟩ : SearchResult Nat) ∈
      search_filtered (μ := Nat) (fun i => if i = 0 then some "doc" else none)
        (fun _ => false) 1 [⟨0, 0, none⟩] ∧
    (⟨0, "doc", 0, none⟩ : SearchResult Nat).metadata = none ∧
    search_filtered (μ := Nat) (fun i => if i = 0 then some "doc" else none)
      (fun _ => false) 1 [⟨0, 0, none⟩] ≠ [] := by
  refine ⟨rfl, ?_, rfl, ?_⟩
  · rw [show search_filtered (μ := Nat)
        (fun i => if i = 0 then some "doc" else none)
        (fun _ => false) 1 [⟨0, 0, none⟩] = [⟨0, "doc", 0, none⟩] from rfl]
    exact List.mem_singleton.mpr rfl
  · rw [show search_filtered (μ := Nat)
        (fun i => if i = 0 then some "doc" else none)
        (fun _ => false) 1 [⟨0, 0, none⟩] = [⟨0, "doc", 0, none⟩] from rfl]
    simp

lemma search_filtered_filterMap_eq {μ : Type} (texts : VectorId → Option String)
    (filter : μ → Bool) (results : List (RawResult μ)) :
    (results.filterMap fun r =>
      match texts r.id with
      | none => none
      | some t =>
        match r.metadata with
        | some m =>
          if filter m then some (⟨r.id, t, r.score, r.metadata⟩ : SearchResult μ)
          else none
        | none => some ⟨r.id, t, r.score, r.metadata⟩) =
    (results.filter fun s =>
        (texts s.id).isSome &&
          match s.metadata with
          | some m => filter m
          | none => true).map
      fun s => ⟨s.id, (texts s.id).getD "", s.score, s.metadata⟩ := by
  induction results with
  | nil => rfl
  | cons r rs ih =>
    rw [List.filterMap_cons, List.filter_cons]
    cases htx : texts r.id with
    | none => simpa [htx] using ih
    | some t =>
      cases hmd : r.metadata with
      | none => simp [htx, hmd, ih]
      | some m => by_cases hf : filter m <;> simp [htx, hmd, hf, ih]

/-- Claim C1 as amended: search_filtered fetches 4 times k candidates
(both the requested count and the search breadth), and its output is
exactly the first k raw hits, in the store ranking order, that survive
the filter stage, enriched with their texts; the filter stage keeps a
hit exactly when it has a text entry and either carries no metadata
(such a candidate always passes) or carries metadata the predicate
accepts; hence at most k results, each with no metadata or with
predicate-accepted metadata. -/
theorem search_filtered_correct {μ : Type} (texts : VectorId → Option String)
    (filter : μ → Bool) (k : Nat) (results : List (RawResult μ)) :
    (searchFilteredParamsOf k).k = 4 * k ∧
    (searchFilteredParamsOf k).efSearch = 4 * k ∧
    search_filtered texts filter k results =
      ((results.filter fun s =>
          (texts s.id).isSome &&
            match s.metadata with
            | some m => filter m
            | none => true).map
        fun s => ⟨s.id, (texts s.id).getD "", s.score, s.metadata⟩).take k ∧
    (∀ r ∈ results, (texts r.id).isSome = true → r.metadata = none →
      r ∈ results.filter fun s =>
        (texts s.id).isSome &&
          match s.metadata with
          | some m => filter m
          | none => true) ∧
    (search_filtered texts filter k results).length ≤ k ∧
    ∀ res ∈ search_filtered texts filter k results,
      res.metadata = none ∨ ∃ m, res.metadata = some m ∧ filter m = true := by
  refine ⟨Nat.mul_comm k 4, Nat.mul_comm k 4, ?_, ?_, ?_, ?_⟩
  · unfold search_filtered
    rw [search_filtered_filterMap_eq]
  · intro r hr htx hmd
    refine List.mem_filter.mpr ⟨hr, ?_⟩
    simp [htx, hmd]
  · simp [search_filtered, List.length_take]
  · intro res hres
    have hres' := List.mem_of_mem_take hres
    obtain ⟨r, _, heq⟩ := List.mem_filterMap.mp hres'
    cases htx : texts r.id with
    | none => simp [htx] at heq
    | some t =>
      cases hmd : r.metadata with
      | none =>
        simp only [htx, hmd] at heq
        obtain rfl := Option.some_injective _ heq
        exact Or.inl rfl
      | some m =>
        simp only [htx, hmd] at heq
        by_cases hf : filter m
        · simp only [hf, if_true] at heq
          obtain rfl := Option.some_injective _ heq
          exact Or.inr ⟨m, hmd ▸ rfl, hf⟩
        · simp [hf] at heq

/-- Witness for the amended claim C1, instantiating the membership
hypothesis at a concrete accepted result and the retention conjunct at
a concrete hit without metadata. -/
theorem search_filtered_correct_witness :
    (((⟨0, "doc", 0, some 7⟩ : SearchResult Nat) ∈
        search_filtered (μ := Nat) (fun i => if i = 0 then some "doc" else none)
          (fun m => m = 7) 1 [⟨0, 0, some 7⟩]) ∧
      ((⟨0, "doc", 0, some 7⟩ : SearchResult Nat).metadata = none ∨
        ∃ m, (⟨0, "doc", 0, some 7⟩ : SearchResult Nat).metadata = some m ∧
          (fun m : Nat => decide (m = 7)) m = true)) ∧
    ((⟨0, 0, none⟩ : RawResult Nat) ∈ [(⟨0, 0, none⟩ : RawResult Nat)] ∧
      (((fun i => if i = 0 then some "doc" else none)
        (⟨0, 0, none⟩ : RawResult Nat).id).isSome = true) ∧
      (⟨0, 0, none⟩ : RawResult Nat).metadata = none ∧
      (⟨0, 0, none⟩ : RawResult Nat) ∈
        [(⟨0, 0, none⟩ : RawResult Nat)].filter fun s =>
          ((fun i => if i = 0 then some "doc" else none) s.id).isSome &&
            match s.metadata with
            | some m => (fun _ : Nat => false) m
            | none => true) :=
  ⟨⟨by
      rw [show search_filtered (μ := Nat)
          (fun i => if i = 0 then some "doc" else none)
          (fun m => m = 7) 1 [⟨0, 0, some 7⟩] = [⟨0, "doc", 0, some 7⟩]
        from rfl]
      exact List.mem_singleton.mpr rfl,
    (search_filtered_correct (μ := Nat)
        (fun i => if i = 0 then some "doc" else none)
        (fun m => decide (m = 7)) 1 [⟨0, 0, some 7⟩]).2.2.2.2.2
      ⟨0, "doc", 0, some 7⟩
      (by
        rw [show search_filtered (μ := Nat)
            (fun i => if i = 0 then some "doc" else none)
            (fun m => m = 7) 1 [⟨0, 0, some 7⟩] = [⟨0, "doc", 0, some 7⟩]
          from rfl]
        exact List.mem_singleton.mpr rfl)⟩,
    ⟨List.mem_singleton.mpr rfl, rfl, rfl,
      (search_filtered_correct (μ := Nat)
          (fun i => if i = 0 then some "doc" else none)
          (fun _ => false) 1 [⟨0, 0, none⟩]).2.2.2.1
        ⟨0, 0, none⟩ (List.mem_singleton.mpr rfl) rfl rfl⟩⟩

lemma sum_squares_nonneg (v : List ℝ) : 0 ≤ (v.map fun x => x * x).sum := by
  refine List.sum_nonneg ?_
  intro x hx
  obtain ⟨y, _, rfl⟩ := List.mem_map.mp hx
  exact mul_self_nonneg y

/-- Claim C6: when the L2 norm is nonzero, vector_normalize divides
every element by the norm and the result has L2 norm within 1e-5 of 1
(in this real-valued model, exactly 1); when the norm is exactly zero
the input is returned unchanged. -/
theorem vector_normalize_correct (v : List ℝ) :
    (vector_norm v ≠ 0 →
      vector_normalize v = v.map (fun x => x / vector_norm v) ∧
      |vector_norm (vector_normalize v) - 1| ≤ 1 / 100000) ∧
    (vector_norm v = 0 → vector_normalize v = v) := by
  constructor
  · intro h
    have hdef : vector_normalize v = v.map fun x => x / vector_norm v := by
      simp [vector_normalize, h]
    refine ⟨hdef, ?_⟩
    have hS : 0 ≤ (v.map fun x => x * x).sum := sum_squares_nonneg v
    have hpos : 0 < vector_norm v :=
      lt_of_le_of_ne (Real.sqrt_nonneg _) (Ne.symm h)
    have hSpos : 0 < (v.map fun x => x * x).sum := by
      have := Real.sqrt_pos.mp hpos
      simpa [vector_norm] using this
    have hsum : ((v.map fun x => x / vector_norm v).map fun x => x * x).sum
        = (v.map fun x => x * x).sum *
          (vector_norm v * vector_norm v)⁻¹ := by
      rw [List.map_map]
      have hcomp : ((fun x => x * x) ∘ fun x => x / vector_norm v)
          = fun x => (x * x) * (vector_norm v * vector_norm v)⁻¹ := by
        funext x
        simp only [Function.comp, division_def, mul_inv]
        ring
      rw [hcomp, List.sum_map_mul_right]
    have hmm : vector_norm v * vector_norm v = (v.map fun x => x * x).sum := by
      simpa [vector_norm] using Real.mul_self_sqrt hS
    have hone : vector_norm (v.map fun x => x / vector_norm v) = 1 := by
      rw [vector_norm, hsum, hmm,
        mul_inv_cancel₀ (ne_of_gt hSpos), Real.sqrt_one]
    rw [hdef, hone]
    norm_num
  · intro h
    simp [vector_normalize, h]

/-- Witness for claim C6 at a vector of nonzero norm and a zero
vector. -/
theorem vector_normalize_correct_witness :
    (vector_norm [3, 4] ≠ 0 ∧
      |vector_norm (vector_normalize [3, 4]) - 1| ≤ 1 / 100000) ∧
    (vector_norm ([0] : List ℝ) = 0 ∧ vector_normalize [0] = [0]) := by
  have h34 : vector_norm [3, 4] ≠ 0 := by
    have : (0 : ℝ) < vector_norm [3, 4] := by
      rw [vector_norm]
      simp only [List.map_cons, List.map_nil, List.sum_cons, List.sum_nil]
      rw [Real.sqrt_pos]
      norm_num
    exact ne_of_gt this
  have h0 : vector_norm ([0] : List ℝ) = 0 := by
    simp [vector_norm]
  exact ⟨⟨h34, ((vector_normalize_correct [3, 4]).1 h34).2⟩,
    ⟨h0, (vector_normalize_correct [0]).2 h0⟩⟩

lemma MemStore.delete_fst {μ : Type} (s : MemStore μ) (i : VectorId) :
    (s.delete i).1 = true ↔ i ∈ s.ids := by
  simp [MemStore.delete, MemStore.ids, List.any_eq_true]

lemma map_vid_filter {μ : Type} (l : List (StoredVec μ)) (i : VectorId) :
    (l.filter fun e => ¬ e.vid = i).map (·.vid) =
      (l.map (·.vid)).filter fun j => ¬ j = i := by
  induction l with
  | nil => rfl
  | cons e t ih =>
    simp only [decide_not] at ih
    by_cases h : e.vid = i <;> simp [h, decide_not, ih]

lemma MemStore.delete_ids {μ : Type} (s : MemStore μ) (i : VectorId) :
    ((s.delete i).2).ids = s.ids.filter fun j => ¬ j = i := by
  simp only [MemStore.delete, MemStore.ids]
  exact map_vid_filter s.entries i

lemma MemStore.delete_not_mem {μ : Type} (s : MemStore μ) (i : VectorId) :
    i ∉ ((s.delete i).2).ids := by
  rw [MemStore.delete_ids]
  simp

lemma MemStore.delete_absent {μ : Type} (s : MemStore μ) (i : VectorId)
    (h : i ∉ s.ids) : s.delete i = (false, s) := by
  have h1 : (s.delete i).1 = false := by
    rw [← Bool.not_eq_true, MemStore.delete_fst]
    exact h
  have h2 : (s.entries.filter fun e => ¬ e.vid = i) = s.entries := by
    refine List.filter_eq_self.mpr ?_
    intro e he
    simp only [decide_eq_true_eq]
    intro hvid
    exact h (List.mem_map.mpr ⟨e, he, hvid⟩)
  simp only [MemStore.delete] at h1 ⊢
  rw [h1, h2]

lemma delete_result_store {μ : Type} (s : RuVectorEmbeddings μ)
    (i : VectorId) : (delete s i).2.store = (s.store.delete i).2 := by
  unfold delete
  by_cases hb : (s.store.delete i).1 <;> simp [hb]

lemma delete_layer_absent {μ : Type} (s : RuVectorEmbeddings μ)
    (i : VectorId) (h : i ∉ s.store.ids) : delete s i = (false, s) := by
  unfold delete
  rw [MemStore.delete_absent s.store i h]
  simp

lemma delete_fst_iff {μ : Type} (s : RuVectorEmbeddings μ) (i : VectorId) :
    (delete s i).1 = true ↔ i ∈ s.store.ids := by
  unfold delete
  by_cases hb : (s.store.delete i).1 <;>
    simp [hb, ← MemStore.delete_fst s.store i]

/-- Claim C8: delete reports whether the store confirmed a removal,
removes the side-mapping entry only on confirmation and leaves the
side-mapping untouched otherwise; deleting an absent identifier returns
false and leaves the state and its reported length unchanged, and a
second delete of the same identifier always returns false and changes
nothing (idempotence). -/
theorem delete_correct {μ : Type} (s : RuVectorEmbeddings μ) (i : VectorId) :
    ((delete s i).1 = true ↔ i ∈ s.store.ids) ∧
    ((delete s i).1 = true → (delete s i).2.texts i = none) ∧
    ((delete s i).1 = false → (delete s i).2.texts = s.texts) ∧
    (i ∉ s.store.ids →
      delete s i = (false, s) ∧ lenOf (delete s i).2 = lenOf s) ∧
    delete (delete s i).2 i = (false, (delete s i).2) := by
  refine ⟨delete_fst_iff s i, ?_, ?_, ?_, ?_⟩
  · intro h
    unfold delete at h ⊢
    by_cases hb : (s.store.delete i).1 <;> simp [hb] at h ⊢
  · intro h
    unfold delete at h ⊢
    by_cases hb : (s.store.delete i).1 <;> simp [hb] at h ⊢
  · intro h
    have habs := delete_layer_absent s i h
    exact ⟨habs, by rw [habs]⟩
  · refine delete_layer_absent _ i ?_
    rw [delete_result_store]
    exact MemStore.delete_not_mem s.store i

/-- Witness for claim C8 on a one-element index, deleting a present and
an absent identifier. -/
theorem delete_correct_witness :
    ((delete (⟨⟨1, [⟨0, [1], none⟩]⟩,
        fun j => if j = 0 then some "x" else none⟩ : RuVectorEmbeddings Unit)
      0).1 = true) ∧
    ((delete (⟨⟨1, [⟨0, [1], none⟩]⟩,
        fun j => if j = 0 then some "x" else none⟩ : RuVectorEmbeddings Unit)
      0).2.texts 0 = none) ∧
    (5 ∉ (⟨⟨1, [⟨0, [1], none⟩]⟩,
        fun j => if j = 0 then some "x" else none⟩ :
          RuVectorEmbeddings Unit).store.ids) ∧
    (delete (⟨⟨1, [⟨0, [1], none⟩]⟩,
        fun j => if j = 0 then some "x" else none⟩ : RuVectorEmbeddings Unit)
      5 =
      (false, (⟨⟨1, [⟨0, [1], none⟩]⟩,
        fun j => if j = 0 then some "x" else none⟩ :
          RuVectorEmbeddings Unit))) :=
  ⟨rfl,
    (delete_correct (⟨⟨1, [⟨0, [1], none⟩]⟩,
        fun j => if j = 0 then some "x" else none⟩ : RuVectorEmbeddings Unit)
      0).2.1 rfl,
    by decide,
    ((delete_correct (⟨⟨1, [⟨0, [1], none⟩]⟩,
        fun j => if j = 0 then some "x" else none⟩ : RuVectorEmbeddings Unit)
      5).2.2.2.1 (by decide)).1⟩

lemma MemStore.insertBatch_spec {μ : Type} (l : List (List ℚ × Option μ)) :
    ∀ s : MemStore μ,
      (s.insertBatch l).1 = List.range' s.nextId l.length ∧
      (s.insertBatch l).2.ids = s.ids ++ List.range' s.nextId l.length ∧
      (s.insertBatch l).2.nextId = s.nextId + l.length := by
  induction l with
  | nil =>
    intro s
    simp [MemStore.insertBatch]
  | cons e rest ih =>
    intro s
    obtain ⟨h1, h2, h3⟩ := ih (s.insert e.1 e.2).2
    have hnext : (s.insert e.1 e.2).2.nextId = s.nextId + 1 := rfl
    have hids : (s.insert e.1 e.2).2.ids = s.ids ++ [s.nextId] := by
      simp [MemStore.insert, MemStore.ids]
    simp only [MemStore.insertBatch, List.length_cons]
    rw [List.range'_succ s.nextId rest.length 1]
    refine ⟨?_, ?_, ?_⟩
    · show (s.insert e.1 e.2).1 :: ((s.insert e.1 e.2).2.insertBatch rest).1 = _
      rw [h1, hnext]
      rfl
    · show ((s.insert e.1 e.2).2.insertBatch rest).2.ids = _
      rw [h2, hids, hnext, List.append_assoc, List.singleton_append]
    · show ((s.insert e.1 e.2).2.insertBatch rest).2.nextId = _
      rw [h3, hnext]
      omega

lemma updateTexts_ne_none (ps : List (VectorId × String)) :
    ∀ (m : VectorId → Option String) (i : VectorId),
      updateTexts m ps i ≠ none ↔ m i ≠ none ∨ i ∈ ps.map Prod.fst := by
  induction ps with
  | nil =>
    intro m i
    simp [updateTexts]
  | cons p rest ih =>
    intro m i
    have hstep : updateTexts m (p :: rest) =
        updateTexts (fun j => if j = p.1 then some p.2 else m j) rest := rfl
    rw [hstep, ih]
    by_cases h : i = p.1 <;> simp [h]

lemma preserve_insert_we {μ : Type} (s : RuVectorEmbeddings μ)
    (hWF : StoreWF s) (hInv : InvI1 s)
    (text : String) (emb : List ℚ) (meta : Option μ) :
    StoreWF (insert_with_embedding s text emb meta).2 ∧
    InvI1 (insert_with_embedding s text emb meta).2 := by
  have hids : (insert_with_embedding s text emb meta).2.store.ids =
      s.store.ids ++ [s.store.nextId] := by
    simp [insert_with_embedding, MemStore.insert, MemStore.ids]
  have hnext : (insert_with_embedding s text emb meta).2.store.nextId =
      s.store.nextId + 1 := rfl
  have htexts : (insert_with_embedding s text emb meta).2.texts =
      fun i => if i = s.store.nextId then some text else s.texts i := rfl
  refine ⟨⟨?_, ?_⟩, ?_⟩
  · intro i hi
    rw [hids] at hi
    rw [hnext]
    rcases List.mem_append.mp hi with h | h
    · exact Nat.lt_succ_of_lt (hWF.1 i h)
    · have hi2 : i = s.store.nextId := List.mem_singleton.mp h
      subst hi2
      exact Nat.lt_succ_self _
  · rw [hids]
    refine List.nodup_append.mpr ⟨hWF.2, List.nodup_singleton _, ?_⟩
    intro j hj hj'
    simp only [List.mem_singleton] at hj'
    subst hj'
    exact absurd (hWF.1 _ hj) (lt_irrefl _)
  · intro i
    simp only [htexts, hids]
    by_cases h : i = s.store.nextId <;>
      simp [h, hInv i, List.mem_append]

lemma preserve_insert_batch {μ : Type} (s : RuVectorEmbeddings μ)
    (hWF : StoreWF s) (hInv : InvI1 s)
    (texts : List String) (embs : List (List ℚ)) :
    StoreWF (insert_batch_with_embeddings s texts embs).2 ∧
    InvI1 (insert_batch_with_embeddings s texts embs).2 := by
  by_cases h : texts.length ≠ embs.length
  · simp only [insert_batch_with_embeddings, if_pos h]
    exact ⟨hWF, hInv⟩
  · push_neg at h
    obtain ⟨h1, h2, h3⟩ :=
      MemStore.insertBatch_spec (embs.map fun v => (v, (none : Option μ))) s.store
    rw [List.length_map] at h1 h2 h3
    have hstate : (insert_batch_with_embeddings s texts embs).2 =
        ⟨(s.store.insertBatch (embs.map fun v => (v, none))).2,
          updateTexts s.texts
            ((s.store.insertBatch (embs.map fun v => (v, none))).1.zip texts)⟩ := by
      simp [insert_batch_with_embeddings, h]
    rw [hstate]
    have hzip : ((s.store.insertBatch
        (embs.map fun v => (v, (none : Option μ)))).1.zip texts).map Prod.fst =
        (s.store.insertBatch (embs.map fun v => (v, none))).1 := by
      refine List.map_fst_zip _ _ ?_
      rw [h1, List.length_range', h]
    refine ⟨⟨?_, ?_⟩, ?_⟩
    · intro i hi
      simp only [h2, List.mem_append] at hi
      simp only [h3]
      rcases hi with hi | hi
      · exact Nat.lt_of_lt_of_le (hWF.1 i hi) (Nat.le_add_right _ _)
      · exact (List.mem_range'_1.mp hi).2
    · simp only [h2]
      refine List.nodup_append.mpr
        ⟨hWF.2, List.nodup_range' _ _, ?_⟩
      intro j hj hj'
      exact absurd (hWF.1 j hj)
        (not_lt_of_le (List.mem_range'_1.mp hj').1)
    · intro i
      show updateTexts s.texts _ i ≠ none ↔ _
      rw [updateTexts_ne_none, hzip, hInv i, h2, h1, List.mem_append]

lemma preserve_delete {μ : Type} (s : RuVectorEmbeddings μ)
    (hWF : StoreWF s) (hInv : InvI1 s) (i : VectorId) :
    StoreWF (delete s i).2 ∧ InvI1 (delete s i).2 := by
  by_cases hb : (s.store.delete i).1
  · have hstate : (delete s i).2 =
        ⟨(s.store.delete i).2, fun j => if j = i then none else s.texts j⟩ := by
      simp [delete, hb]
    have hids : ((s.store.delete i).2).ids = s.store.ids.filter fun j => ¬ j = i :=
      MemStore.delete_ids s.store i
    have hnext : ((s.store.delete i).2).nextId = s.store.nextId := rfl
    rw [hstate]
    refine ⟨⟨?_, ?_⟩, ?_⟩
    · intro j hj
      simp only [hids, List.mem_filter] at hj
      simp only [hnext]
      exact hWF.1 j hj.1
    · simp only [hids]
      exact hWF.2.filter _
    · intro j
      simp only [hids]
      by_cases hji : j = i
      · subst hji
        simp [List.mem_filter]
      · simp [List.mem_filter, hji, hInv j]
  · have habs : i ∉ s.store.ids := fun hmem =>
      hb ((MemStore.delete_fst s.store i).mpr hmem)
    rw [delete_layer_absent s i habs]
    exact ⟨hWF, hInv⟩

lemma preserve_clear {μ : Type} (s : RuVectorEmbeddings μ) :
    StoreWF (clear s) ∧ InvI1 (clear s) := by
  refine ⟨⟨?_, ?_⟩, ?_⟩ <;>
    simp [clear, MemStore.clear, MemStore.ids, InvI1, StoreWF]

/-- Claim C2: the key set of the text side-mapping coincides with the
identifier set of the vector store after every completed operation:
insert, insert_with_embedding, insert_batch_with_embeddings, delete and
clear all preserve invariant I1 (together with store well-formedness,
which backs identifier freshness). -/
theorem invariant_I1_preserved {μ : Type} (s : RuVectorEmbeddings μ)
    (hWF : StoreWF s) (hInv : InvI1 s) :
    (∀ (embedOne : String → List ℚ) (text : String) (meta : Option μ),
      StoreWF (insert embedOne s text meta).2 ∧
      InvI1 (insert embedOne s text meta).2) ∧
    (∀ (text : String) (emb : List ℚ) (meta : Option μ),
      StoreWF (insert_with_embedding s text emb meta).2 ∧
      InvI1 (insert_with_embedding s text emb meta).2) ∧
    (∀ (texts : List String) (embs : List (List ℚ)),
      StoreWF (insert_batch_with_embeddings s texts embs).2 ∧
      InvI1 (insert_batch_with_embeddings s texts embs).2) ∧
    (∀ i : VectorId, StoreWF (delete s i).2 ∧ InvI1 (delete s i).2) ∧
    (StoreWF (clear s) ∧ InvI1 (clear s)) :=
  ⟨fun f t m => preserve_insert_we s hWF hInv t (f t) m,
    fun t e m => preserve_insert_we s hWF hInv t e m,
    fun ts es => preserve_insert_batch s hWF hInv ts es,
    fun i => preserve_delete s hWF hInv i,
    preserve_clear s⟩

/-- Witness for claim C2 starting from the freshly built empty index. -/
theorem invariant_I1_preserved_witness :
    StoreWF (⟨⟨0, []⟩, fun _ => none⟩ : RuVectorEmbeddings Unit) ∧
    InvI1 (⟨⟨0, []⟩, fun _ => none⟩ : RuVectorEmbeddings Unit) ∧
    (StoreWF (insert_with_embedding
        (⟨⟨0, []⟩, fun _ => none⟩ : RuVectorEmbeddings Unit) "t" [1] none).2 ∧
      InvI1 (insert_with_embedding
        (⟨⟨0, []⟩, fun _ => none⟩ : RuVectorEmbeddings Unit) "t" [1] none).2) ∧
    (StoreWF (clear (⟨⟨0, []⟩, fun _ => none⟩ : RuVectorEmbeddings Unit)) ∧
      InvI1 (clear (⟨⟨0, []⟩, fun _ => none⟩ : RuVectorEmbeddings Unit))) := by
  have hWF : StoreWF (⟨⟨0, []⟩, fun _ => none⟩ : RuVectorEmbeddings Unit) := by
    refine ⟨?_, ?_⟩ <;> simp [StoreWF, MemStore.ids]
  have hInv : InvI1 (⟨⟨0, []⟩, fun _ => none⟩ : RuVectorEmbeddings Unit) := by
    intro i
    simp [MemStore.ids]
  exact ⟨hWF, hInv,
    (invariant_I1_preserved _ hWF hInv).2.1 "t" [1] none,
    (invariant_I1_preserved _ hWF hInv).2.2.2.2⟩

end RuVector
